import Mathlib

/-!
# Seafile client: progress dialog and repo tree view

A shallow embedding of `src/filebrowser/progress-dialog.cpp` and
`src/ui/repo-tree-view.cpp`, with the properties of the specification that
concern them.

Conventions of the embedding.

* `QString` is `String`; the `QString` member functions used by the source
  (`contains`, `section`, `arg`) are defined on the underlying character lists.
* `qint64` and `int` values are integers (`Int`); the narrowing conversion to
  `int` and two's complement wrap-around are written explicitly.
* `double` values are rationals produced by `roundDouble`, the IEEE 754 binary64
  round-to-nearest-even of an exact rational result.
* The Qt widgets are records of the properties the source reads and writes; a
  call of a slot that closes the dialog (`accept`, `reject`) is appended to a log.
-/

namespace Seafile

/-! ## QString helpers -/

/-- Substring test on character lists: does `sub` occur in the list. -/
def containsChars (sub : List Char) : List Char → Bool
  | [] => sub.isEmpty
  | c :: cs => sub.isPrefixOf (c :: cs) || containsChars sub cs

/-- The Qt call `QString::contains(const QString &)`. -/
def QString_contains (s sub : String) : Bool :=
  containsChars sub.data s.data

/-- The Qt call `QString::split(sep)` on character lists.  The second argument
counts the characters of a separator that has been recognised and is still to
be skipped, the third one accumulates the current field in reverse. -/
def splitChars (sep : List Char) : List Char → Nat → List Char → List (List Char)
  | [], _, acc => [acc.reverse]
  | _ :: cs, skip + 1, acc => splitChars sep cs skip acc
  | c :: cs, 0, acc =>
      if sep ≠ [] ∧ sep.isPrefixOf (c :: cs) = true then
        acc.reverse :: splitChars sep cs (sep.length - 1) []
      else
        splitChars sep cs 0 (c :: acc)

/-- The Qt call `QString::section(sep, start, end)` with the default flags and
non-negative field numbers: the fields `start .. end` of the string split at
`sep`, joined by `sep` again. -/
def QString_section (s sep : String) (start stop : Nat) : String :=
  String.mk
    (List.intercalate sep.data
      (((splitChars sep.data s.data 0 []).drop start).take (stop + 1 - start)))

/-! ## Repo tree view (`src/ui/repo-tree-view.cpp`) -/

/-- Modelled from the spec: the record `ServerRepo`, a library on the server;
only the identifier is read by the view. -/
structure ServerRepo where
  id : String
  name : String
deriving DecidableEq, Repr

/-- Modelled from the spec: the enumeration `LocalRepo::SyncState` of
`rpc/local-repo.h`, with the six values the specification lists and the
`switch` of `getSyncStatusIcon` covers. -/
inductive SyncState where
  | SYNC_STATE_DONE
  | SYNC_STATE_ING
  | SYNC_STATE_ERROR
  | SYNC_STATE_WAITING
  | SYNC_STATE_DISABLED
  | SYNC_STATE_UNKNOWN
deriving DecidableEq, Repr

/-- Modelled from the spec: the record `LocalRepo` of `rpc/local-repo.h`, a
local checkout tracked by the daemon. -/
structure LocalRepo where
  id : String
  worktree : String
  sync_state : SyncState
deriving DecidableEq, Repr

/-- Modelled from the spec: the glyph identifiers of the icon font
(`QtAwesome.h`) that the view refers to by name. -/
inductive Glyph where
  | icon_cloud
  | icon_ok
  | icon_refresh
  | icon_exclamation
  | icon_pause
  | icon_minus_sign
  | icon_question_sign
  | icon_info_sign
  | icon_download
  | icon_folder_open_alt
deriving DecidableEq, Repr

/-- The part of `SeafileRpcClient` (`src/rpc/rpc-client.h`) the view calls.  The
bodies live in the daemon binding, so both calls are parameters:
`getLocalRepo id` gives the integer status and the contents of the record
passed as out-parameter when the call returns. -/
structure SeafileRpcClient where
  getLocalRepo : String → Int × LocalRepo
  hasLocalRepo : String → Bool

/-- A `QAction` of the context menu: the properties the view sets. -/
structure QAction where
  text : String
  statusTip : String
  icon : Glyph
  visible : Bool
  data : Option ServerRepo
deriving DecidableEq, Repr

/-- The state of `RepoTreeView` that `prepareContextMenu` touches: the three
actions. -/
structure RepoTreeView where
  show_detail_action_ : QAction
  download_action_ : QAction
  open_local_folder_action_ : QAction
deriving DecidableEq, Repr

/-- The member `QAction::setData`. -/
def QAction.setData (a : QAction) (repo : ServerRepo) : QAction :=
  { a with data := some repo }

/-- The member `QAction::setVisible`. -/
def QAction.setVisible (a : QAction) (b : Bool) : QAction :=
  { a with visible := b }

/-- The function `RepoTreeView::createContextMenu`: the three actions as
constructed (a new `QAction` is visible and carries no data). -/
def createContextMenu : RepoTreeView :=
  { show_detail_action_ :=
      { text := "&Show details", statusTip := "Download this library",
        icon := Glyph.icon_info_sign, visible := true, data := none }
    download_action_ :=
      { text := "&Download this library", statusTip := "Download this library",
        icon := Glyph.icon_download, visible := true, data := none }
    open_local_folder_action_ :=
      { text := "&Open folder", statusTip := "open this folder with file manager",
        icon := Glyph.icon_folder_open_alt, visible := true, data := none } }

/-- The function `RepoTreeView::prepareContextMenu`. -/
def prepareContextMenu (rpc : SeafileRpcClient) (v : RepoTreeView) (repo : ServerRepo) :
    RepoTreeView :=
  let v1 : RepoTreeView :=
    { show_detail_action_ := v.show_detail_action_.setData repo
      open_local_folder_action_ := v.open_local_folder_action_.setData repo
      download_action_ := v.download_action_.setData repo }
  if rpc.hasLocalRepo repo.id then
    { v1 with
      download_action_ := v1.download_action_.setVisible false
      open_local_folder_action_ := v1.open_local_folder_action_.setVisible true }
  else
    { v1 with
      download_action_ := v1.download_action_.setVisible true
      open_local_folder_action_ := v1.open_local_folder_action_.setVisible false }

/-- The function `RepoTreeView::getSyncStatusIcon`. -/
def getSyncStatusIcon (rpc : SeafileRpcClient) (repo : ServerRepo) : Glyph :=
  let r := rpc.getLocalRepo repo.id
  let local_repo := r.2
  if r.1 < 0 then
    -- No local repo, return a cloud icon to indicate this
    Glyph.icon_cloud
  else
    -- Has local repo, return an icon according to sync status
    match local_repo.sync_state with
    | SyncState.SYNC_STATE_DONE => Glyph.icon_ok
    | SyncState.SYNC_STATE_ING => Glyph.icon_refresh
    | SyncState.SYNC_STATE_ERROR => Glyph.icon_exclamation
    | SyncState.SYNC_STATE_WAITING => Glyph.icon_pause
    | SyncState.SYNC_STATE_DISABLED => Glyph.icon_minus_sign
    | SyncState.SYNC_STATE_UNKNOWN => Glyph.icon_question_sign

/-! ## More QString helpers -/

/-- The decimal value of a digit character (`QChar::digitValue`). -/
def digitValue (c : Char) : Option Nat :=
  if c.isDigit then some (c.toNat - 48) else none

/-- A place marker `%N` (one or two digits) at the head of the text: its number
and its length in characters. -/
def markerAt : List Char → Option (Nat × Nat)
  | '%' :: d1 :: d2 :: _ =>
      match digitValue d1, digitValue d2 with
      | some a, some b => some (10 * a + b, 3)
      | some a, none => some (a, 2)
      | none, _ => none
  | ['%', d1] =>
      match digitValue d1 with
      | some a => some (a, 2)
      | none => none
  | _ => none

/-- The lowest place-marker number that occurs in the text. -/
def minMarker : List Char → Option Nat
  | [] => none
  | c :: cs =>
      match markerAt (c :: cs), minMarker cs with
      | some (n, _), some m => some (min n m)
      | some (n, _), none => some n
      | none, r => r

/-- Replace every place marker number `n` by `a`; the last argument counts the
characters of a replaced marker that are still to be skipped. -/
def replaceMarker (n : Nat) (a : List Char) : List Char → Nat → List Char
  | [], _ => []
  | _ :: cs, skip + 1 => replaceMarker n a cs skip
  | c :: cs, 0 =>
      match markerAt (c :: cs) with
      | some (m, len) =>
          if m = n then a ++ replaceMarker n a cs (len - 1)
          else c :: replaceMarker n a cs 0
      | none => c :: replaceMarker n a cs 0

/-- The Qt call `QString::arg(const QString &)`: every occurrence of the
lowest-numbered place marker is replaced by the argument (the locale flag `%L`
is not modelled). -/
def QString_arg (s a : String) : String :=
  match minMarker s.data with
  | none => s
  | some n => String.mk (replaceMarker n a.data s.data 0)

/-- The Qt call `QFileInfo(path).fileName()`: the text after the last `/`. -/
def fileName (path : String) : String :=
  String.mk (path.data.reverse.takeWhile (fun c => c != '/')).reverse

/-- The translation call `tr`: the source text itself. -/
def tr (s : String) : String := s

/-! ## Machine arithmetic -/

/-- The constant `INT_MAX` of `<climits>` for a 32-bit `int`. -/
def INT_MAX : Int := 2147483647

/-- The narrowing conversion of a `qint64` to a 32-bit `int` (two's
complement). -/
def toInt32 (x : Int) : Int := (x + 2 ^ 31) % 2 ^ 32 - 2 ^ 31

/-- A `qint64` result reduced to 64 bits (two's complement wrap-around). -/
def wrapInt64 (x : Int) : Int := (x + 2 ^ 63) % 2 ^ 64 - 2 ^ 63

/-- Nearest integer of a rational, ties to the even integer. -/
def roundHalfEven (y : ℚ) : ℤ :=
  if y - ⌊y⌋ < 1 / 2 then ⌊y⌋
  else if 1 / 2 < y - ⌊y⌋ then ⌊y⌋ + 1
  else if ⌊y⌋ % 2 = 0 then ⌊y⌋ else ⌊y⌋ + 1

/-- The IEEE 754 binary64 value nearest to the rational `x` (round to nearest,
ties to even, 53 significant bits).  The exponent range is not modelled: every
value that arises from 64-bit operands in `onProgressUpdate` has its magnitude
between `2^(-64)` and `2^95`, far inside the normal range. -/
def roundDouble (x : ℚ) : ℚ :=
  if x = 0 then 0
  else (roundHalfEven (x / 2 ^ (Int.log 2 |x| - 52)) : ℚ) * 2 ^ (Int.log 2 |x| - 52)

/-- The conversion of an integer (`qint64` or `int`) to `double`. -/
def doubleOfInt (n : Int) : ℚ := roundDouble (n : ℚ)

/-- The `double` product. -/
def doubleMul (a b : ℚ) : ℚ := roundDouble (a * b)

/-- The `double` quotient (the divisor is never zero where it is used). -/
def doubleDiv (a b : ℚ) : ℚ := roundDouble (a / b)

/-- The cast `(int)` of a `double`: truncation toward zero.  In C++ the cast is
defined when the truncated value fits an `int`, which is the case for every
non-negative `processed_bytes` (see `progress_fits_int`). -/
def doubleToInt (x : ℚ) : Int :=
  if 0 ≤ x then ⌊x⌋ else ⌈x⌉

/-! ## Transfer progress dialog (`src/filebrowser/progress-dialog.cpp`) -/

/-- The discriminator `FileNetworkTask::type()`. -/
inductive TaskType where
  | Upload
  | Download
deriving DecidableEq, Repr

/-- Modelled from the spec: the transfer task (`FileNetworkTask`, and its upload
specialisation) the dialog observes.  Besides the attributes the dialog reads,
it records the control calls made on it: the number of `cancel()` calls and the
arguments of the `continueWithFailedFile` calls, in order. -/
structure FileNetworkTask where
  type : TaskType
  localFilePath : String
  oid : String
  url : String
  canceled : Bool
  cancelCalls : Nat
  continued : List Bool
deriving DecidableEq, Repr

/-- Modelled from the spec: `FileNetworkTask::cancel()` sets the canceled flag. -/
def FileNetworkTask.cancel (t : FileNetworkTask) : FileNetworkTask :=
  { t with canceled := true, cancelCalls := t.cancelCalls + 1 }

/-- Modelled from the spec: `FileUploadTask::continueWithFailedFile(retry)`
resumes the task; the call is recorded. -/
def FileNetworkTask.continueWithFailedFile (t : FileNetworkTask) (retry : Bool) :
    FileNetworkTask :=
  { t with continued := t.continued ++ [retry] }

/-- An index query: constructed from a base URL and an object id. -/
structure QueryIndexRequest where
  url : String
  oid : String
deriving DecidableEq, Repr

/-- Modelled from the spec: the response to an index query. -/
structure QueryIndexResult where
  status : Int
  indexed : Int
  total : Int
deriving DecidableEq, Repr

/-- The two ways a `QDialog` is closed. -/
inductive DialogCode where
  | Rejected
  | Accepted
deriving DecidableEq, Repr

/-- The helpers of `utils/utils.h` the dialog calls; their bodies are outside
the excerpt, so they are parameters. -/
structure Utils where
  readableFileSizeV2 : Int → String
  getBrand : String

/-- The state of a `FileBrowserProgressDialog`: the task, the members of the
class, the widget properties it sets, the index queries sent (`sent`), and the
calls of `accept()` and `reject()` in order (`closed`). -/
structure FileBrowserProgressDialog where
  task_ : FileNetworkTask
  windowTitle : String
  labelText : String
  more_details_label_ : String
  maximum : Int
  value : Int
  oid_ : String
  url_ : String
  query_status_ : Int
  query_request_ : Option QueryIndexRequest
  sent : List QueryIndexRequest
  closed : List DialogCode
deriving DecidableEq, Repr

/-- The slot `QDialog::accept()`. -/
def FileBrowserProgressDialog.accept (d : FileBrowserProgressDialog) :
    FileBrowserProgressDialog :=
  { d with closed := d.closed ++ [DialogCode.Accepted] }

/-- The slot `QDialog::reject()`. -/
def FileBrowserProgressDialog.reject (d : FileBrowserProgressDialog) :
    FileBrowserProgressDialog :=
  { d with closed := d.closed ++ [DialogCode.Rejected] }

/-- The setter `QProgressDialog::setMaximum(int)`. -/
def FileBrowserProgressDialog.setMaximum (d : FileBrowserProgressDialog) (m : Int) :
    FileBrowserProgressDialog :=
  { d with maximum := m }

/-- The setter `QProgressDialog::setValue(int)`.  Only the value set is kept: a
value equal to the maximum is what makes Qt reset and hide the dialog, which is
why `onProgressUpdate` guards against it. -/
def FileBrowserProgressDialog.setValue (d : FileBrowserProgressDialog) (v : Int) :
    FileBrowserProgressDialog :=
  { d with value := v }

/-- The function `FileBrowserProgressDialog::initTaskInfo`. -/
def initTaskInfo (d : FileBrowserProgressDialog) : FileBrowserProgressDialog :=
  if d.task_.canceled then d
  else
    let title := if d.task_.type = TaskType.Upload then tr "Upload" else tr "Download"
    let label :=
      if d.task_.type = TaskType.Upload then tr "Uploading %1" else tr "Downloading %1"
    let d1 := { d with windowTitle := title }
    let d2 := { d1 with labelText := QString_arg label (fileName d.task_.localFilePath) }
    let d3 := { d2 with more_details_label_ := "" }
    (d3.setMaximum 0).setValue 0

/-- The constructor of `FileBrowserProgressDialog`: a fresh progress bar (range
0 to 100, no value), the details label reading "Pending", no query, then
`initTaskInfo`.  The member `query_status_` is not initialised by the source;
it is 0 here. -/
def FileBrowserProgressDialog.create (task : FileNetworkTask) : FileBrowserProgressDialog :=
  initTaskInfo
    { task_ := task, windowTitle := "", labelText := "",
      more_details_label_ := tr "Pending", maximum := 100, value := -1,
      oid_ := "", url_ := "", query_status_ := 0, query_request_ := none,
      sent := [], closed := [] }

/-- The function `FileBrowserProgressDialog::onCurrentNameUpdate`. -/
def onCurrentNameUpdate (d : FileBrowserProgressDialog) (current_name : String) :
    FileBrowserProgressDialog :=
  let label := tr "Uploading %1"
  { d with labelText := QString_arg label current_name }

/-- The value of the local `progress` in the rescaling branch of
`onProgressUpdate`: `double(processed_bytes) * INT_MAX / total_bytes`. -/
def scaledProgress (processed_bytes total_bytes : Int) : ℚ :=
  doubleDiv (doubleMul (doubleOfInt processed_bytes) (doubleOfInt INT_MAX))
    (doubleOfInt total_bytes)

/-- The total after the guard at the head of `onProgressUpdate`. -/
def effectiveTotal (processed_bytes total_bytes : Int) : Int :=
  if processed_bytes ≥ total_bytes then wrapInt64 (processed_bytes + 1) else total_bytes

/-- The function `FileBrowserProgressDialog::onProgressUpdate`. -/
def onProgressUpdate (u : Utils) (d : FileBrowserProgressDialog)
    (processed_bytes total_bytes : Int) : FileBrowserProgressDialog :=
  -- Skip the updates if the task has been cancelled
  if d.task_.canceled then d
  else
    -- if the value is less than the maximum, this dialog will close itself
    let total_bytes := effectiveTotal processed_bytes total_bytes
    let d1 :=
      if total_bytes > INT_MAX then
        let d2 := if d.maximum ≠ INT_MAX then d.setMaximum INT_MAX else d
        -- Avoid overflow
        let progress := scaledProgress processed_bytes total_bytes
        d2.setValue (doubleToInt progress)
      else
        let d2 := if d.maximum ≠ total_bytes then d.setMaximum (toInt32 total_bytes) else d
        d2.setValue (toInt32 processed_bytes)
    { d1 with
      more_details_label_ :=
        QString_arg (QString_arg (tr "%1 of %2") (u.readableFileSizeV2 processed_bytes))
          (u.readableFileSizeV2 total_bytes) }

/-- The function `FileBrowserProgressDialog::onQueryUpdate`: the pending request,
if any, is dropped and a fresh one for `url_` and `oid_` is sent. -/
def onQueryUpdate (d : FileBrowserProgressDialog) : FileBrowserProgressDialog :=
  let d1 := if d.query_request_.isSome then { d with query_request_ := none } else d
  let request : QueryIndexRequest := { url := d1.url_, oid := d1.oid_ }
  { d1 with query_request_ := some request, sent := d1.sent ++ [request] }

/-- The function `FileBrowserProgressDialog::onTaskFinished`. -/
def onTaskFinished (d : FileBrowserProgressDialog) (success : Bool) :
    FileBrowserProgressDialog :=
  if d.task_.canceled then d
  else
    let d1 := { d with oid_ := d.task_.oid }
    let d2 := { d1 with url_ := QString_section d.task_.url "upload" 0 0 }
    if success then
      if QString_contains d2.oid_ "-" then onQueryUpdate d2
      else d2.accept
    else
      d2.reject

/-- The function `FileBrowserProgressDialog::onQuerySuccess`. -/
def onQuerySuccess (u : Utils) (d : FileBrowserProgressDialog) (result : QueryIndexResult) :
    FileBrowserProgressDialog :=
  let d1 := { d with labelText := tr "Saving" }
  let d2 := { d1 with query_status_ := result.status }
  let d3 :=
    { d2 with
      more_details_label_ :=
        QString_arg (QString_arg (tr "%1 of %2") (u.readableFileSizeV2 result.indexed))
          (u.readableFileSizeV2 result.total) }
  if d3.query_status_ = 0 then d3.accept
  else onQueryUpdate d3

/-- The function `FileBrowserProgressDialog::cancel`. -/
def cancel (d : FileBrowserProgressDialog) : FileBrowserProgressDialog :=
  if d.task_.canceled then d
  else
    let d1 := { d with task_ := d.task_.cancel }
    d1.reject

/-- The enumeration `FileBrowserProgressDialog::ActionOnFailure`. -/
inductive ActionOnFailure where
  | ActionRetry
  | ActionSkip
  | ActionAbort
deriving DecidableEq, Repr

/-- The roles of `QMessageBox::ButtonRole` the prompt uses. -/
inductive ButtonRole where
  | YesRole
  | NoRole
  | RejectRole
deriving DecidableEq, Repr

/-- A `QMessageBox`: its texts and its buttons in the order they were added.  A
button pointer is the position of the button in that list; `none` is the null
pointer. -/
structure QMessageBox where
  text : String
  windowTitle : String
  buttons : List (String × ButtonRole)
  defaultButton : Option Nat
deriving DecidableEq, Repr

/-- The call `QMessageBox::addButton(text, role)`: the box with the new button,
and the pointer to it. -/
def QMessageBox.addButton (box : QMessageBox) (text : String) (role : ButtonRole) :
    QMessageBox × Option Nat :=
  ({ box with buttons := box.buttons ++ [(text, role)] }, some box.buttons.length)

/-- The prompt `retryOrSkipOrAbort` builds before `box.exec()`, with the pointers
`yes_btn` and `no_btn`. -/
def failurePrompt (u : Utils) (msg : String) (single_file : Bool) :
    QMessageBox × Option Nat × Option Nat :=
  let box : QMessageBox :=
    { text := msg, windowTitle := u.getBrand, buttons := [], defaultButton := none }
  let r1 := box.addButton (tr "Retry") ButtonRole.YesRole
  let yes_btn := r1.2
  let r2 :=
    if !single_file then
      -- If this is single file upload/update, we only show "retry" and "abort"
      r1.1.addButton (tr "Skip") ButtonRole.NoRole
    else (r1.1, none)
  let no_btn := r2.2
  let r3 := r2.1.addButton (tr "Abort") ButtonRole.RejectRole
  ({ r3.1 with defaultButton := yes_btn }, yes_btn, no_btn)

/-- The function `FileBrowserProgressDialog::retryOrSkipOrAbort`; `clicked` is
what `box.clickedButton()` returns after `box.exec()`. -/
def retryOrSkipOrAbort (u : Utils) (msg : String) (single_file : Bool)
    (clicked : Option Nat) : ActionOnFailure :=
  let prompt := failurePrompt u msg single_file
  let yes_btn := prompt.2.1
  let no_btn := prompt.2.2
  let btn := clicked
  if btn = yes_btn then ActionOnFailure.ActionRetry
  else if btn = no_btn then ActionOnFailure.ActionSkip
  else ActionOnFailure.ActionAbort

/-- The function `FileBrowserProgressDialog::onOneFileUploadFailed`. -/
def onOneFileUploadFailed (u : Utils) (d : FileBrowserProgressDialog) (filename : String)
    (single_file : Bool) (clicked : Option Nat) : FileBrowserProgressDialog :=
  if d.task_.canceled then d
  else
    let msg := QString_arg (tr "Failed to upload file \"%1\", do you want to retry?") filename
    let choice := retryOrSkipOrAbort u msg single_file clicked
    match choice with
    | ActionOnFailure.ActionRetry => { d with task_ := d.task_.continueWithFailedFile true }
    | ActionOnFailure.ActionSkip => { d with task_ := d.task_.continueWithFailedFile false }
    | ActionOnFailure.ActionAbort => cancel d

/-- The notifications and requests a dialog receives. -/
inductive Event where
  | progressUpdate (processed_bytes total_bytes : Int)
  | nameUpdate (current_name : String)
  | finished (success : Bool)
  | retried (count : Int)
  | oneFileFailed (filename : String) (single_file : Bool) (clicked : Option Nat)
  | querySuccess (result : QueryIndexResult)
  | canceled
deriving DecidableEq, Repr

/-- The slot each event is connected to in the constructor; the signal
`oneFileFailed` is connected for upload tasks only. -/
def deliver (u : Utils) (d : FileBrowserProgressDialog) : Event → FileBrowserProgressDialog
  | Event.progressUpdate p t => onProgressUpdate u d p t
  | Event.nameUpdate n => onCurrentNameUpdate d n
  | Event.finished s => onTaskFinished d s
  | Event.retried _ => initTaskInfo d
  | Event.oneFileFailed f s c =>
      if d.task_.type = TaskType.Upload then onOneFileUploadFailed u d f s c else d
  | Event.querySuccess r => onQuerySuccess u d r
  | Event.canceled => cancel d

/-- Deliver a sequence of events, in order. -/
def run (u : Utils) (d : FileBrowserProgressDialog) (events : List Event) :
    FileBrowserProgressDialog :=
  events.foldl (deliver u) d

/-! ## Sample inputs -/

/-- A daemon that knows one checkout, in the given sync state and with the given
status code. -/
def sampleRpc (code : Int) (st : SyncState) : SeafileRpcClient :=
  { getLocalRepo := fun id => (code, { id := id, worktree := "/home/user/lib", sync_state := st })
    hasLocalRepo := fun _ => decide (0 ≤ code) }

/-- Sample helpers: a coarse size formatter and the brand name. -/
def sampleUtils : Utils :=
  { readableFileSizeV2 := fun n => if n < 1024 then "small" else "large"
    getBrand := "Seafile" }

/-- An upload task whose object id has the composite, hyphenated form. -/
def sampleTask : FileNetworkTask :=
  { type := TaskType.Upload, localFilePath := "/home/user/report.pdf",
    oid := "1234-5678-90ab", url := "https://cloud.example.org/seafhttp/upload-api/0a1b2c",
    canceled := false, cancelCalls := 0, continued := [] }

/-- The dialog attached to `sampleTask`. -/
def sampleDialog : FileBrowserProgressDialog :=
  FileBrowserProgressDialog.create sampleTask

/-- The sample dialog once its task reports itself canceled and the dialog has
been rejected. -/
def canceledDialog : FileBrowserProgressDialog :=
  { sampleDialog with
    task_ := { sampleTask with canceled := true, cancelCalls := 1 }
    closed := [DialogCode.Rejected] }

/-! # Properties -/

/-! ## Repo tree view -/

/-- C8: for a found local repo (`getLocalRepo` returns a non-negative code)
`getSyncStatusIcon` returns the documented glyph of each of the six sync states,
two found repos get the same glyph only when their sync states agree (the six
glyphs are pairwise distinct), and a negative code gives the cloud glyph
whatever the record contains. -/
theorem getSyncStatusIcon_mapping (rpc : SeafileRpcClient) (repo : ServerRepo)
    (code : Int) (local_repo : LocalRepo)
    (hcall : rpc.getLocalRepo repo.id = (code, local_repo)) :
    (code < 0 → getSyncStatusIcon rpc repo = Glyph.icon_cloud) ∧
    (0 ≤ code →
      (local_repo.sync_state = SyncState.SYNC_STATE_DONE →
        getSyncStatusIcon rpc repo = Glyph.icon_ok) ∧
      (local_repo.sync_state = SyncState.SYNC_STATE_ING →
        getSyncStatusIcon rpc repo = Glyph.icon_refresh) ∧
      (local_repo.sync_state = SyncState.SYNC_STATE_ERROR →
        getSyncStatusIcon rpc repo = Glyph.icon_exclamation) ∧
      (local_repo.sync_state = SyncState.SYNC_STATE_WAITING →
        getSyncStatusIcon rpc repo = Glyph.icon_pause) ∧
      (local_repo.sync_state = SyncState.SYNC_STATE_DISABLED →
        getSyncStatusIcon rpc repo = Glyph.icon_minus_sign) ∧
      (local_repo.sync_state = SyncState.SYNC_STATE_UNKNOWN →
        getSyncStatusIcon rpc repo = Glyph.icon_question_sign) ∧
      getSyncStatusIcon rpc repo ≠ Glyph.icon_cloud ∧
      ∀ (rpc2 : SeafileRpcClient) (repo2 : ServerRepo),
        0 ≤ (rpc2.getLocalRepo repo2.id).1 →
        (getSyncStatusIcon rpc repo = getSyncStatusIcon rpc2 repo2 ↔
          local_repo.sync_state = (rpc2.getLocalRepo repo2.id).2.sync_state)) := by
  refine ⟨fun hneg => ?_, fun hpos => ?_⟩
  · simp [getSyncStatusIcon, hcall, hneg]
  · have hnot : ¬ code < 0 := not_lt.mpr hpos
    refine ⟨?_, ?_, ?_, ?_, ?_, ?_, ?_, ?_⟩
    · intro h
      simp [getSyncStatusIcon, hcall, hnot, h]
    · intro h
      simp [getSyncStatusIcon, hcall, hnot, h]
    · intro h
      simp [getSyncStatusIcon, hcall, hnot, h]
    · intro h
      simp [getSyncStatusIcon, hcall, hnot, h]
    · intro h
      simp [getSyncStatusIcon, hcall, hnot, h]
    · intro h
      simp [getSyncStatusIcon, hcall, hnot, h]
    · cases hs : local_repo.sync_state <;> simp [getSyncStatusIcon, hcall, hnot, hs]
    · intro rpc2 repo2 h2
      have hnot2 : ¬ (rpc2.getLocalRepo repo2.id).1 < 0 := not_lt.mpr h2
      cases hs : local_repo.sync_state <;>
        cases hs2 : (rpc2.getLocalRepo repo2.id).2.sync_state <;>
          simp [getSyncStatusIcon, hcall, hnot, hnot2, hs, hs2]

/-- Witness of C8 at a repo whose local checkout is being synchronised. -/
theorem getSyncStatusIcon_mapping_witness :
    getSyncStatusIcon (sampleRpc 0 SyncState.SYNC_STATE_ING) { id := "r1", name := "docs" }
      = Glyph.icon_refresh :=
  ((getSyncStatusIcon_mapping (sampleRpc 0 SyncState.SYNC_STATE_ING)
      { id := "r1", name := "docs" } 0
      { id := "r1", worktree := "/home/user/lib", sync_state := SyncState.SYNC_STATE_ING }
      rfl).2 (le_refl 0)).2.1 rfl

/-- C9: after `prepareContextMenu repo`, whatever the actions looked like before,
"Download this library" is visible exactly when `hasLocalRepo repo.id` is false
and "Open folder" exactly when it is true, so exactly one of the two is visible;
and the three actions carry `repo` as payload. -/
theorem prepareContextMenu_exclusive (rpc : SeafileRpcClient) (v : RepoTreeView)
    (repo : ServerRepo) :
    (prepareContextMenu rpc v repo).download_action_.visible = !rpc.hasLocalRepo repo.id ∧
    (prepareContextMenu rpc v repo).open_local_folder_action_.visible =
      rpc.hasLocalRepo repo.id ∧
    (prepareContextMenu rpc v repo).download_action_.visible ≠
      (prepareContextMenu rpc v repo).open_local_folder_action_.visible ∧
    (prepareContextMenu rpc v repo).show_detail_action_.data = some repo ∧
    (prepareContextMenu rpc v repo).download_action_.data = some repo ∧
    (prepareContextMenu rpc v repo).open_local_folder_action_.data = some repo := by
  cases h : rpc.hasLocalRepo repo.id <;>
    simp [prepareContextMenu, QAction.setData, QAction.setVisible, h]

/-! ## Progress dialog: finishing, polling, cancelling -/

/-- A one-character text occurs in a list exactly when the character is a
member of it. -/
theorem containsChars_singleton (c : Char) (l : List Char) :
    containsChars [c] l = true ↔ c ∈ l := by
  induction l with
  | nil => simp [containsChars]
  | cons a t ih =>
    simp only [containsChars, Bool.or_eq_true, ih, List.mem_cons]
    constructor
    · rintro (h | h)
      · left
        simp [List.isPrefixOf] at h
        exact h
      · right; exact h
    · rintro (h | h)
      · left
        simp [List.isPrefixOf, h]
      · right; exact h

/-- The test `oid_.contains("-")` holds exactly when the id has a hyphen. -/
theorem QString_contains_hyphen (s : String) :
    QString_contains s "-" = true ↔ '-' ∈ s.data := by
  unfold QString_contains
  exact containsChars_singleton '-' s.data

/-- C6: on a task that is not canceled, `onTaskFinished(false)` rejects and sends
no index query; `onTaskFinished(true)` with an object id containing `-` sends one
index query (for the truncated URL and that id) and closes nothing;
`onTaskFinished(true)` with an id without `-` accepts and sends no query; and a
query response accepts exactly when its status is 0, every other response sends
exactly one fresh query and closes nothing. -/
theorem onTaskFinished_polling (u : Utils) (d : FileBrowserProgressDialog)
    (hc : d.task_.canceled = false) :
    ((onTaskFinished d false).closed = d.closed ++ [DialogCode.Rejected] ∧
      (onTaskFinished d false).sent = d.sent) ∧
    ('-' ∈ d.task_.oid.data →
      (onTaskFinished d true).closed = d.closed ∧
      (onTaskFinished d true).sent =
        d.sent ++ [{ url := QString_section d.task_.url "upload" 0 0, oid := d.task_.oid }] ∧
      (onTaskFinished d true).query_request_ =
        some { url := QString_section d.task_.url "upload" 0 0, oid := d.task_.oid }) ∧
    ('-' ∉ d.task_.oid.data →
      (onTaskFinished d true).closed = d.closed ++ [DialogCode.Accepted] ∧
      (onTaskFinished d true).sent = d.sent) ∧
    (∀ (p : FileBrowserProgressDialog) (result : QueryIndexResult),
      (result.status = 0 →
        (onQuerySuccess u p result).closed = p.closed ++ [DialogCode.Accepted] ∧
        (onQuerySuccess u p result).sent = p.sent) ∧
      (result.status ≠ 0 →
        (onQuerySuccess u p result).closed = p.closed ∧
        (onQuerySuccess u p result).sent = p.sent ++ [{ url := p.url_, oid := p.oid_ }] ∧
        (onQuerySuccess u p result).query_request_ = some { url := p.url_, oid := p.oid_ })) := by
  refine ⟨?_, ?_, ?_, ?_⟩
  · simp [onTaskFinished, hc, FileBrowserProgressDialog.reject]
  · intro h
    have h1 : QString_contains d.task_.oid "-" = true := (QString_contains_hyphen _).mpr h
    cases hq : d.query_request_ <;>
      simp [onTaskFinished, hc, h1, onQueryUpdate, hq]
  · intro h
    have h1 : ¬ QString_contains d.task_.oid "-" = true :=
      fun hh => h ((QString_contains_hyphen _).mp hh)
    simp [onTaskFinished, hc, h1, FileBrowserProgressDialog.accept]
  · intro p result
    refine ⟨fun h0 => ?_, fun h1 => ?_⟩
    · simp [onQuerySuccess, h0, FileBrowserProgressDialog.accept]
    · cases hq : p.query_request_ <;>
        simp [onQuerySuccess, h1, onQueryUpdate, hq]

/-- Witness of C6 at the sample dialog, whose task has a hyphenated object id:
finishing with success closes nothing and sends one query. -/
theorem onTaskFinished_polling_witness :
    (onTaskFinished sampleDialog true).closed = sampleDialog.closed ∧
    (onTaskFinished sampleDialog true).sent =
      sampleDialog.sent ++
        [{ url := QString_section sampleDialog.task_.url "upload" 0 0,
           oid := sampleDialog.task_.oid }] :=
  have h := (onTaskFinished_polling sampleUtils sampleDialog (by decide)).2.1 (by decide)
  ⟨h.1, h.2.1⟩

/-- The four guarded slots ignore every notification of a canceled task. -/
theorem guarded_slots_ignore_canceled (u : Utils) (d : FileBrowserProgressDialog)
    (hc : d.task_.canceled = true) :
    (∀ p t, onProgressUpdate u d p t = d) ∧
    (∀ success, onTaskFinished d success = d) ∧
    initTaskInfo d = d ∧
    (∀ filename single_file clicked,
      onOneFileUploadFailed u d filename single_file clicked = d) ∧
    cancel d = d := by
  refine ⟨?_, ?_, ?_, ?_, ?_⟩
  · intro p t
    simp [onProgressUpdate, hc]
  · intro success
    simp [onTaskFinished, hc]
  · simp [initTaskInfo, hc]
  · intro filename single_file clicked
    simp [onOneFileUploadFailed, hc]
  · simp [cancel, hc]

/-- C4 (failing input): the name-update slot has no canceled guard.  On the
sample dialog whose task is canceled (the state `cancel()` leaves behind), a
current-name notification still replaces the label text "Uploading report.pdf"
by "Uploading b.txt". -/
theorem onCurrentNameUpdate_after_cancel :
    canceledDialog.task_.canceled = true ∧
    canceledDialog = cancel sampleDialog ∧
    canceledDialog.labelText = "Uploading report.pdf" ∧
    (onCurrentNameUpdate canceledDialog "b.txt").labelText = "Uploading b.txt" ∧
    onCurrentNameUpdate canceledDialog "b.txt" ≠ canceledDialog := by
  decide

/-- C5 (failing input): the response slot of the index query has no canceled
guard and `cancel()` leaves the pending query alone.  The sample upload finishes
with a hyphenated id (a query is sent), the user cancels (the dialog is
rejected), and the response with status 0 then accepts the dialog: it is closed
twice. -/
theorem closed_twice_after_cancel (u : Utils) :
    (run u sampleDialog [Event.finished true]).query_request_.isSome = true ∧
    (run u sampleDialog [Event.finished true, Event.canceled]).closed =
      [DialogCode.Rejected] ∧
    (run u sampleDialog [Event.finished true, Event.canceled]).task_.canceled = true ∧
    (run u sampleDialog
      [Event.finished true, Event.canceled,
        Event.querySuccess { status := 0, indexed := 4096, total := 4096 }]).closed =
      [DialogCode.Rejected, DialogCode.Accepted] := by
  refine ⟨?_, ?_, ?_, ?_⟩ <;> rfl

/-! ## Progress dialog: the prompt after a failed file -/

/-- The prompt has exactly the buttons Retry and Abort for a single file and
Retry, Skip, Abort otherwise; and for a clicked button of the prompt the choice
is the one of that button, so Skip is never returned for a single file. -/
theorem retryOrSkipOrAbort_clicked (u : Utils) (msg : String) :
    (failurePrompt u msg true).1.buttons =
      [("Retry", ButtonRole.YesRole), ("Abort", ButtonRole.RejectRole)] ∧
    (failurePrompt u msg false).1.buttons =
      [("Retry", ButtonRole.YesRole), ("Skip", ButtonRole.NoRole),
        ("Abort", ButtonRole.RejectRole)] ∧
    (∀ i : Nat, retryOrSkipOrAbort u msg true (some i) ≠ ActionOnFailure.ActionSkip) ∧
    retryOrSkipOrAbort u msg true (some 0) = ActionOnFailure.ActionRetry ∧
    retryOrSkipOrAbort u msg true (some 1) = ActionOnFailure.ActionAbort ∧
    retryOrSkipOrAbort u msg false (some 0) = ActionOnFailure.ActionRetry ∧
    retryOrSkipOrAbort u msg false (some 1) = ActionOnFailure.ActionSkip ∧
    retryOrSkipOrAbort u msg false (some 2) = ActionOnFailure.ActionAbort ∧
    retryOrSkipOrAbort u msg false none = ActionOnFailure.ActionAbort := by
  refine ⟨rfl, rfl, ?_, rfl, rfl, rfl, rfl, rfl, rfl⟩
  intro i
  have hno : (failurePrompt u msg true).2.2 = none := rfl
  unfold retryOrSkipOrAbort
  simp only [hno]
  split_ifs with h1 h2
  · simp
  · exact absurd h2 (by simp)
  · simp

/-- The slot maps the three choices to `continueWithFailedFile(true)`,
`continueWithFailedFile(false)` and `cancel()`. -/
theorem onOneFileUploadFailed_dispatch (u : Utils) (d : FileBrowserProgressDialog)
    (filename : String) (single_file : Bool) (clicked : Option Nat)
    (hc : d.task_.canceled = false) :
    onOneFileUploadFailed u d filename single_file clicked =
      match retryOrSkipOrAbort u
        (QString_arg (tr "Failed to upload file \"%1\", do you want to retry?") filename)
        single_file clicked with
      | ActionOnFailure.ActionRetry => { d with task_ := d.task_.continueWithFailedFile true }
      | ActionOnFailure.ActionSkip => { d with task_ := d.task_.continueWithFailedFile false }
      | ActionOnFailure.ActionAbort => cancel d := by
  simp [onOneFileUploadFailed, hc]

/-- C7 (failing input): a single-file upload whose prompt is closed with no
clicked button.  The prompt offers only Retry and Abort, `no_btn` is the null
pointer and so is the clicked button, hence `retryOrSkipOrAbort` returns
`ActionSkip`, and `onOneFileUploadFailed` calls `continueWithFailedFile(false)`
without canceling. -/
theorem single_file_prompt_closed_skips (u : Utils) (msg : String) :
    (failurePrompt u msg true).1.buttons =
      [("Retry", ButtonRole.YesRole), ("Abort", ButtonRole.RejectRole)] ∧
    (failurePrompt u msg true).2.2 = none ∧
    retryOrSkipOrAbort u msg true none = ActionOnFailure.ActionSkip ∧
    (onOneFileUploadFailed u sampleDialog "report.pdf" true none).task_.continued = [false] ∧
    (onOneFileUploadFailed u sampleDialog "report.pdf" true none).task_.canceled = false ∧
    (onOneFileUploadFailed u sampleDialog "report.pdf" true none).closed = [] := by
  refine ⟨rfl, rfl, rfl, rfl, rfl, rfl⟩

/-! ## Progress dialog: the base URL of the index query -/

/-- The first field of `splitChars`: it extends the accumulated field by a
prefix of the text that contains no start of the separator, and it ends either
at the end of the text or right before an occurrence of the separator. -/
theorem splitChars_head (sep : List Char) (hsep : sep ≠ []) :
    ∀ (s acc : List Char), ∃ f rest,
      splitChars sep s 0 acc = (acc.reverse ++ f) :: rest ∧
      f <+: s ∧
      (∀ j, j < f.length → ¬ sep <+: s.drop j) ∧
      (f = s ∨ sep <+: s.drop f.length) := by
  intro s
  induction s with
  | nil =>
    intro acc
    exact ⟨[], [], by simp [splitChars], List.prefix_refl _, by simp, Or.inl rfl⟩
  | cons c cs ih =>
    intro acc
    by_cases hp : sep.isPrefixOf (c :: cs) = true
    · refine ⟨[], splitChars sep cs (sep.length - 1) [], ?_, List.nil_prefix, by simp, Or.inr ?_⟩
      · simp [splitChars, hsep, hp]
      · simpa using List.isPrefixOf_iff_prefix.mp hp
    · obtain ⟨f, rest, h1, h2, h3, h4⟩ := ih (c :: acc)
      refine ⟨c :: f, rest, ?_, ?_, ?_, ?_⟩
      · simp [splitChars, hp, h1]
      · exact List.prefix_cons_inj c |>.mpr h2
      · intro j hj
        cases j with
        | zero =>
          intro hpre
          exact hp (List.isPrefixOf_iff_prefix.mpr (by simpa using hpre))
        | succ j =>
          simpa using h3 j (by simpa using hj)
      · rcases h4 with h4 | h4
        · left; rw [h4]
        · right; simpa using h4

/-- The data of `QString_section s sep 0 0` is the first field of the split. -/
theorem QString_section_first (s sep : String) (hsep : sep.data ≠ []) :
    (QString_section s sep 0 0).data <+: s.data ∧
    (∀ j, j < (QString_section s sep 0 0).data.length → ¬ sep.data <+: s.data.drop j) ∧
    ((QString_section s sep 0 0).data = s.data ∨
      sep.data <+: s.data.drop (QString_section s sep 0 0).data.length) := by
  obtain ⟨f, rest, h1, h2, h3, h4⟩ := splitChars_head sep.data hsep s.data []
  have hd : (QString_section s sep 0 0).data = f := by
    simp [QString_section, h1, List.intercalate]
  rw [hd]
  exact ⟨h2, h3, h4⟩

/-- An occurrence of `sep` in `l` starts at some position of `l`. -/
theorem infix_start {sep l : List Char} (h : sep <:+: l) (hsep : sep ≠ []) :
    ∃ j, j < l.length ∧ sep <+: l.drop j := by
  obtain ⟨x, y, hxy⟩ := h
  refine ⟨x.length, ?_, ?_⟩
  · have hl : 0 < sep.length := List.length_pos.mpr hsep
    rw [← hxy]
    simp only [List.length_append]
    omega
  · rw [← hxy]
    simp [List.append_assoc]

/-- C10: after `onTaskFinished` on a task that is not canceled, the base URL of
the index query is the task URL `u` truncated at the first occurrence of
"upload": it is a prefix of `u`, no occurrence of "upload" in `u` starts inside
it (so it contains none), when `u` contains "upload" the prefix is followed by
"upload" in `u`, and when `u` contains no "upload" it is `u` itself. -/
theorem url_truncated_at_upload (d : FileBrowserProgressDialog) (success : Bool)
    (hc : d.task_.canceled = false) :
    (onTaskFinished d success).url_.data <+: d.task_.url.data ∧
    (∀ j, j < (onTaskFinished d success).url_.data.length →
      ¬ "upload".data <+: d.task_.url.data.drop j) ∧
    ¬ "upload".data <:+: (onTaskFinished d success).url_.data ∧
    ("upload".data <:+: d.task_.url.data →
      (onTaskFinished d success).url_.data ++ "upload".data <+: d.task_.url.data) ∧
    (¬ "upload".data <:+: d.task_.url.data →
      (onTaskFinished d success).url_ = d.task_.url) := by
  have hsep : "upload".data ≠ [] := by decide
  have hurl : (onTaskFinished d success).url_ = QString_section d.task_.url "upload" 0 0 := by
    cases success <;> cases hq : d.query_request_ <;>
      cases hh : QString_contains d.task_.oid "-" <;>
        simp [onTaskFinished, hc, onQueryUpdate, FileBrowserProgressDialog.accept,
          FileBrowserProgressDialog.reject, hq, hh]
  obtain ⟨h1, h2, h3⟩ := QString_section_first d.task_.url "upload" hsep
  rw [hurl]
  refine ⟨h1, h2, ?_, ?_, ?_⟩
  · intro hin
    obtain ⟨j, hj, hpre⟩ := infix_start hin hsep
    apply h2 j hj
    obtain ⟨t, ht⟩ := h1
    rw [← ht, List.drop_append_of_le_length (le_of_lt hj)]
    exact hpre.trans (List.prefix_append _ _)
  · intro hin
    rcases h3 with h3 | h3
    · obtain ⟨j, hj, hpre⟩ := infix_start hin hsep
      rw [h3] at h2
      exact absurd hpre (h2 j hj)
    · obtain ⟨t, ht⟩ := h1
      obtain ⟨r, hr⟩ := h3
      refine ⟨r, ?_⟩
      rw [← ht, List.drop_left] at hr
      rw [List.append_assoc, hr, ht]
  · intro hnot
    rcases h3 with h3 | h3
    · cases hs : QString_section d.task_.url "upload" 0 0
      cases hu : d.task_.url
      rw [hs, hu] at h3
      simp at h3
      rw [h3]
    · exfalso
      apply hnot
      obtain ⟨r, hr⟩ := h3
      refine ⟨d.task_.url.data.take (QString_section d.task_.url "upload" 0 0).data.length, r, ?_⟩
      rw [List.append_assoc, hr, List.take_append_drop]

/-- Witness of C10 at the sample dialog: its task URL is cut before "upload". -/
theorem url_truncated_at_upload_witness :
    (onTaskFinished sampleDialog true).url_.data <+: sampleDialog.task_.url.data ∧
    (onTaskFinished sampleDialog true).url_ = "https://cloud.example.org/seafhttp/" :=
  ⟨(url_truncated_at_upload sampleDialog true (by decide)).1, by decide⟩

/-! ## Double arithmetic -/

/-- Rounding to the nearest integer moves a rational by at most one half. -/
theorem roundHalfEven_error (y : ℚ) : |(roundHalfEven y : ℚ) - y| ≤ 1 / 2 := by
  have h1 : (⌊y⌋ : ℚ) ≤ y := Int.floor_le y
  have h2 : y < (⌊y⌋ : ℚ) + 1 := Int.lt_floor_add_one y
  rw [abs_le]
  unfold roundHalfEven
  split_ifs with ha hb hc
  · constructor <;> linarith
  · push_cast
    constructor <;> linarith
  · have hd : y - ⌊y⌋ = 1 / 2 := le_antisymm (not_lt.mp hb) (not_lt.mp ha)
    constructor <;> linarith
  · have hd : y - ⌊y⌋ = 1 / 2 := le_antisymm (not_lt.mp hb) (not_lt.mp ha)
    push_cast
    constructor <;> linarith

/-- An integer is its own nearest integer. -/
theorem roundHalfEven_intCast (n : ℤ) : roundHalfEven (n : ℚ) = n := by
  unfold roundHalfEven
  simp

/-- A rational in `[n, n + 1/2)` rounds to `n`. -/
theorem roundHalfEven_of_lt_half (n : ℤ) (y : ℚ) (h1 : (n : ℚ) ≤ y) (h2 : y < n + 1 / 2) :
    roundHalfEven y = n := by
  have hf : ⌊y⌋ = n := by
    rw [Int.floor_eq_iff]
    constructor
    · exact h1
    · linarith
  unfold roundHalfEven
  rw [hf]
  have : y - (n : ℚ) < 1 / 2 := by linarith
  rw [if_pos this]

/-- The binary exponent `e` of a non-zero rational: `2^e ≤ |x| < 2^(e+1)`. -/
theorem log_bounds (x : ℚ) (hx : x ≠ 0) :
    (2 : ℚ) ^ Int.log 2 |x| ≤ |x| ∧ |x| < (2 : ℚ) ^ (Int.log 2 |x| + 1) := by
  have h1 := Int.zpow_log_le_self (b := 2) (r := |x|) (by norm_num) (abs_pos.mpr hx)
  have h2 := Int.lt_zpow_succ_log_self (b := 2) (by norm_num) |x|
  simp only [Nat.cast_ofNat] at h1 h2
  exact ⟨h1, h2⟩

/-- The exponent is determined by the binade. -/
theorem log_eq_of_bounds (x : ℚ) (e : ℤ) (h1 : (2 : ℚ) ^ e ≤ |x|) (h2 : |x| < (2 : ℚ) ^ (e + 1)) :
    Int.log 2 |x| = e := by
  have hpos : 0 < |x| := lt_of_lt_of_le (by positivity) h1
  apply le_antisymm
  · have := (Int.lt_zpow_iff_log_lt (b := 2) (by norm_num) hpos (x := e + 1)).mp
      (by simpa using h2)
    omega
  · exact (Int.zpow_le_iff_le_log (b := 2) (by norm_num) hpos (x := e)).mp (by simpa using h1)

/-- Evaluation of `roundDouble` in a known binade. -/
theorem roundDouble_of_bounds (x : ℚ) (e : ℤ) (h1 : (2 : ℚ) ^ e ≤ |x|)
    (h2 : |x| < (2 : ℚ) ^ (e + 1)) :
    roundDouble x = (roundHalfEven (x / 2 ^ (e - 52)) : ℚ) * 2 ^ (e - 52) := by
  have hx : x ≠ 0 := by
    intro h
    rw [h, abs_zero] at h1
    exact absurd h1 (not_le.mpr (by positivity))
  unfold roundDouble
  rw [if_neg hx, log_eq_of_bounds x e h1 h2]

/-- A rational `m * 2^k` with an integer `m` of at most 53 bits is a double. -/
theorem roundDouble_of_representable (m k : ℤ) (hm : |m| < 2 ^ 53) :
    roundDouble ((m : ℚ) * 2 ^ k) = (m : ℚ) * 2 ^ k := by
  by_cases hx : (m : ℚ) * 2 ^ k = 0
  · simp [roundDouble, hx]
  · have h2k : (0 : ℚ) < 2 ^ k := by positivity
    obtain ⟨hlo, hhi⟩ := log_bounds _ hx
    set e := Int.log 2 |(m : ℚ) * 2 ^ k| with he
    -- the scaled value is an integer: `e - 52 ≤ k`
    have hmq : |(m : ℚ)| < 2 ^ (53 : ℤ) := by
      have : ((|m| : ℤ) : ℚ) < ((2 ^ 53 : ℤ) : ℚ) := Int.cast_lt.mpr hm
      rw [Int.cast_abs] at this
      calc |(m : ℚ)| < ((2 ^ 53 : ℤ) : ℚ) := this
        _ = 2 ^ (53 : ℤ) := by norm_num
    have hle : e - 52 ≤ k := by
      by_contra hcon
      push_neg at hcon
      have h3 : (2 : ℚ) ^ (k + 53) ≤ 2 ^ e := zpow_le_zpow_right₀ (by norm_num) (by omega)
      have h4 : |(m : ℚ) * 2 ^ k| < 2 ^ (k + 53) := by
        rw [abs_mul, abs_of_pos h2k, zpow_add₀ (by norm_num : (2 : ℚ) ≠ 0), mul_comm]
        exact mul_lt_mul_of_pos_left hmq h2k
      linarith
    obtain ⟨n, hn⟩ : ∃ n : ℕ, k - (e - 52) = n := ⟨(k - (e - 52)).toNat, by omega⟩
    have hdiv : (m : ℚ) * 2 ^ k / 2 ^ (e - 52) = ((m * 2 ^ n : ℤ) : ℚ) := by
      have : k = (e - 52) + n := by omega
      rw [this, zpow_add₀ (by norm_num : (2 : ℚ) ≠ 0)]
      push_cast
      rw [zpow_natCast]
      field_simp
      ring
    unfold roundDouble
    rw [if_neg hx, ← he, hdiv, roundHalfEven_intCast, ← hdiv]
    field_simp

/-- The relative error of one rounding is at most `2^(-53)`. -/
theorem roundDouble_error (x : ℚ) : |roundDouble x - x| ≤ |x| / 2 ^ 53 := by
  by_cases hx : x = 0
  · simp [roundDouble, hx]
  · obtain ⟨hlo, _⟩ := log_bounds x hx
    set e := Int.log 2 |x| with he
    have hs : (0 : ℚ) < 2 ^ (e - 52) := by positivity
    have hr := roundHalfEven_error (x / 2 ^ (e - 52))
    have hexp : (2 : ℚ) ^ (e - 52) = 2 ^ e / 2 ^ 52 := by
      rw [zpow_sub₀ (by norm_num : (2 : ℚ) ≠ 0)]
      norm_cast
    have hm : |(roundHalfEven (x / 2 ^ (e - 52)) : ℚ) * 2 ^ (e - 52) - x| ≤ 2 ^ (e - 52) / 2 := by
      have : (roundHalfEven (x / 2 ^ (e - 52)) : ℚ) * 2 ^ (e - 52) - x =
          ((roundHalfEven (x / 2 ^ (e - 52)) : ℚ) - x / 2 ^ (e - 52)) * 2 ^ (e - 52) := by
        field_simp
      rw [this, abs_mul, abs_of_pos hs]
      calc |(roundHalfEven (x / 2 ^ (e - 52)) : ℚ) - x / 2 ^ (e - 52)| * 2 ^ (e - 52)
          ≤ 1 / 2 * 2 ^ (e - 52) := mul_le_mul_of_nonneg_right hr hs.le
        _ = 2 ^ (e - 52) / 2 := by ring
    unfold roundDouble
    rw [if_neg hx, ← he]
    calc |(roundHalfEven (x / 2 ^ (e - 52)) : ℚ) * 2 ^ (e - 52) - x|
        ≤ 2 ^ (e - 52) / 2 := hm
      _ = 2 ^ e / 2 ^ 53 := by rw [hexp]; ring
      _ ≤ |x| / 2 ^ 53 := by
          apply div_le_div_of_nonneg_right hlo
          positivity

/-- One rounding of a non-negative rational stays within the factor
`1 ± 2^(-53)`. -/
theorem roundDouble_bounds (x : ℚ) (hx : 0 ≤ x) :
    x * (1 - 1 / 2 ^ 53) ≤ roundDouble x ∧ roundDouble x ≤ x * (1 + 1 / 2 ^ 53) := by
  have h := roundDouble_error x
  rw [abs_of_nonneg hx, abs_le] at h
  constructor
  · have : x * (1 - 1 / 2 ^ 53) = x - x / 2 ^ 53 := by ring
    linarith [h.1]
  · have : x * (1 + 1 / 2 ^ 53) = x + x / 2 ^ 53 := by ring
    linarith [h.2]

/-- The constant `INT_MAX` is a double. -/
theorem doubleOfInt_INT_MAX : doubleOfInt INT_MAX = 2147483647 := by
  have h := roundDouble_of_representable 2147483647 0 (by norm_num)
  simpa [doubleOfInt, INT_MAX] using h

/-- The rescaled progress is the exact quotient up to the relative error of four
roundings. -/
theorem scaledProgress_bounds (p t : ℤ) (hp : 0 ≤ p) (ht : 0 < t) :
    (p : ℚ) * 2147483647 / t * (1 - 1 / 2 ^ 51) ≤ scaledProgress p t ∧
    scaledProgress p t ≤ (p : ℚ) * 2147483647 / t * (1 + 5 / 2 ^ 53) := by
  have hpq : (0 : ℚ) ≤ p := by exact_mod_cast hp
  have htq : (0 : ℚ) < t := by exact_mod_cast ht
  have hu1 : (0 : ℚ) < 1 - 1 / 2 ^ 53 := by norm_num
  have hu2 : (0 : ℚ) < 1 + 1 / 2 ^ 53 := by norm_num
  -- the three operands
  obtain ⟨hP1, hP2⟩ := roundDouble_bounds (p : ℚ) hpq
  have hP0 : 0 ≤ roundDouble (p : ℚ) := le_trans (mul_nonneg hpq hu1.le) hP1
  have hPM0 : 0 ≤ roundDouble (p : ℚ) * 2147483647 := mul_nonneg hP0 (by norm_num)
  obtain ⟨hA1, hA2⟩ := roundDouble_bounds _ hPM0
  have hA0 : 0 ≤ roundDouble (roundDouble (p : ℚ) * 2147483647) :=
    le_trans (mul_nonneg hPM0 hu1.le) hA1
  obtain ⟨hT1, hT2⟩ := roundDouble_bounds (t : ℚ) htq.le
  have hT0 : 0 < roundDouble (t : ℚ) := lt_of_lt_of_le (mul_pos htq hu1) hT1
  have hQ0 : 0 ≤ roundDouble (roundDouble (p : ℚ) * 2147483647) / roundDouble (t : ℚ) :=
    div_nonneg hA0 hT0.le
  obtain ⟨hC1, hC2⟩ := roundDouble_bounds _ hQ0
  have hdef : scaledProgress p t =
      roundDouble (roundDouble (roundDouble (p : ℚ) * 2147483647) / roundDouble (t : ℚ)) := by
    simp only [scaledProgress, doubleDiv, doubleMul, doubleOfInt_INT_MAX]
    simp only [doubleOfInt]
  rw [hdef]
  set P := roundDouble (p : ℚ)
  set A := roundDouble (P * 2147483647)
  set T := roundDouble (t : ℚ)
  set C := roundDouble (A / T)
  have hq0 : (0 : ℚ) ≤ (p : ℚ) * 2147483647 / t := div_nonneg (mul_nonneg hpq (by norm_num)) htq.le
  constructor
  · -- lower bound
    have hA : (p : ℚ) * 2147483647 * (1 - 1 / 2 ^ 53) ^ 2 ≤ A := by
      calc (p : ℚ) * 2147483647 * (1 - 1 / 2 ^ 53) ^ 2
          = (p : ℚ) * (1 - 1 / 2 ^ 53) * 2147483647 * (1 - 1 / 2 ^ 53) := by ring
        _ ≤ P * 2147483647 * (1 - 1 / 2 ^ 53) := by gcongr
        _ ≤ A := hA1
    have hdiv : (p : ℚ) * 2147483647 * (1 - 1 / 2 ^ 53) ^ 2 / ((t : ℚ) * (1 + 1 / 2 ^ 53)) ≤ A / T := by
      calc (p : ℚ) * 2147483647 * (1 - 1 / 2 ^ 53) ^ 2 / ((t : ℚ) * (1 + 1 / 2 ^ 53))
          ≤ A / ((t : ℚ) * (1 + 1 / 2 ^ 53)) := by gcongr
        _ ≤ A / T := by gcongr
    calc (p : ℚ) * 2147483647 / t * (1 - 1 / 2 ^ 51)
        ≤ (p : ℚ) * 2147483647 / t * ((1 - 1 / 2 ^ 53) ^ 3 / (1 + 1 / 2 ^ 53)) := by
          apply mul_le_mul_of_nonneg_left _ hq0
          rw [le_div_iff₀ hu2]
          norm_num
      _ = (p : ℚ) * 2147483647 * (1 - 1 / 2 ^ 53) ^ 2 / ((t : ℚ) * (1 + 1 / 2 ^ 53)) *
            (1 - 1 / 2 ^ 53) := by
          field_simp
          ring
      _ ≤ A / T * (1 - 1 / 2 ^ 53) := by gcongr
      _ ≤ C := hC1
  · -- upper bound
    have hA : A ≤ (p : ℚ) * 2147483647 * (1 + 1 / 2 ^ 53) ^ 2 := by
      calc A ≤ P * 2147483647 * (1 + 1 / 2 ^ 53) := hA2
        _ ≤ (p : ℚ) * (1 + 1 / 2 ^ 53) * 2147483647 * (1 + 1 / 2 ^ 53) := by gcongr
        _ = (p : ℚ) * 2147483647 * (1 + 1 / 2 ^ 53) ^ 2 := by ring
    have hdiv : A / T ≤ (p : ℚ) * 2147483647 * (1 + 1 / 2 ^ 53) ^ 2 / ((t : ℚ) * (1 - 1 / 2 ^ 53)) := by
      calc A / T ≤ A / ((t : ℚ) * (1 - 1 / 2 ^ 53)) := by gcongr
        _ ≤ (p : ℚ) * 2147483647 * (1 + 1 / 2 ^ 53) ^ 2 / ((t : ℚ) * (1 - 1 / 2 ^ 53)) := by
          gcongr
    calc C ≤ A / T * (1 + 1 / 2 ^ 53) := hC2
      _ ≤ (p : ℚ) * 2147483647 * (1 + 1 / 2 ^ 53) ^ 2 / ((t : ℚ) * (1 - 1 / 2 ^ 53)) *
            (1 + 1 / 2 ^ 53) := by gcongr
      _ = (p : ℚ) * 2147483647 / t * ((1 + 1 / 2 ^ 53) ^ 3 / (1 - 1 / 2 ^ 53)) := by
          field_simp
          ring
      _ ≤ (p : ℚ) * 2147483647 / t * (1 + 5 / 2 ^ 53) := by
          apply mul_le_mul_of_nonneg_left _ hq0
          rw [div_le_iff₀ hu1]
          norm_num

/-- Evaluation of `roundDouble` at a rational written as `m * 2^k`. -/
theorem roundDouble_eq_self (x : ℚ) (m k : ℤ) (hm : |m| < 2 ^ 53) (hx : x = (m : ℚ) * 2 ^ k) :
    roundDouble x = x := by
  rw [hx]
  exact roundDouble_of_representable m k hm

/-- With 1 GiB of 4 GiB processed every operation is exact: the quotient is
`536870911.75`. -/
theorem scaledProgress_quarter : scaledProgress 1073741824 4294967296 = 2147483647 / 4 := by
  have h1 : doubleOfInt 1073741824 = 1073741824 := by
    unfold doubleOfInt
    exact roundDouble_eq_self _ 1073741824 0 (by norm_num) (by norm_num)
  have h2 : doubleOfInt 4294967296 = 4294967296 := by
    unfold doubleOfInt
    exact roundDouble_eq_self _ 1 32 (by norm_num) (by norm_num)
  have h3 : doubleMul 1073741824 2147483647 = 1073741824 * 2147483647 := by
    unfold doubleMul
    exact roundDouble_eq_self _ 2147483647 30 (by norm_num) (by norm_num)
  have h4 : doubleDiv (1073741824 * 2147483647) 4294967296 = 2147483647 / 4 := by
    unfold doubleDiv
    rw [roundDouble_eq_self _ 2147483647 (-2) (by norm_num) (by norm_num)]
    norm_num
  unfold scaledProgress
  rw [doubleOfInt_INT_MAX, h1, h2, h3, h4]

/-- The double nearest to `2^62 + 1` is `2^62`. -/
theorem doubleOfInt_two_pow_62_succ :
    doubleOfInt 4611686018427387905 = 4611686018427387904 := by
  unfold doubleOfInt
  rw [roundDouble_of_bounds _ 62 (by norm_num [abs_of_pos]) (by norm_num [abs_of_pos])]
  rw [roundHalfEven_of_lt_half 4503599627370496 _ (by norm_num) (by norm_num)]
  norm_num

/-- With `2^62` bytes processed the guarded total `2^62 + 1` is rounded to
`2^62`, and the quotient is `INT_MAX` itself. -/
theorem scaledProgress_two_pow_62 :
    scaledProgress 4611686018427387904 4611686018427387905 = 2147483647 := by
  have h1 : doubleOfInt 4611686018427387904 = 4611686018427387904 := by
    unfold doubleOfInt
    exact roundDouble_eq_self _ 1 62 (by norm_num) (by norm_num)
  have h3 : doubleMul 4611686018427387904 2147483647 = 4611686018427387904 * 2147483647 := by
    unfold doubleMul
    exact roundDouble_eq_self _ 2147483647 62 (by norm_num) (by norm_num)
  have h4 : doubleDiv (4611686018427387904 * 2147483647) 4611686018427387904 = 2147483647 := by
    unfold doubleDiv
    rw [roundDouble_eq_self _ 2147483647 0 (by norm_num) (by norm_num)]
    norm_num
  unfold scaledProgress
  rw [doubleOfInt_INT_MAX, h1, doubleOfInt_two_pow_62_succ, h3, h4]

/-! ## Progress dialog: the progress bar -/

/-- An integer in the `int` range is unchanged by the narrowing conversion. -/
theorem toInt32_of_range (x : Int) (h1 : -2147483648 ≤ x) (h2 : x ≤ 2147483647) :
    toInt32 x = x := by
  unfold toInt32
  omega

/-- An integer in the `qint64` range is unchanged by the 64-bit reduction. -/
theorem wrapInt64_of_range (x : Int) (h1 : -9223372036854775808 ≤ x)
    (h2 : x ≤ 9223372036854775807) : wrapInt64 x = x := by
  unfold wrapInt64
  omega

/-- The guard: the effective total is the total when it exceeds the processed
count, and the processed count plus one otherwise. -/
theorem effectiveTotal_eq (p t : Int) (hp : 0 ≤ p) (hp2 : p < 9223372036854775807) :
    effectiveTotal p t = if t ≤ p then p + 1 else t := by
  unfold effectiveTotal
  by_cases h : t ≤ p
  · rw [if_pos (ge_iff_le.mpr h), if_pos h]
    exact wrapInt64_of_range _ (by omega) (by omega)
  · rw [if_neg (by simpa using h), if_neg h]

/-- The bar after `onProgressUpdate` in the branch without rescaling. -/
theorem onProgressUpdate_small (u : Utils) (d : FileBrowserProgressDialog) (p t : Int)
    (hc : d.task_.canceled = false) (ht : effectiveTotal p t ≤ INT_MAX) :
    (onProgressUpdate u d p t).maximum =
      (if d.maximum ≠ effectiveTotal p t then toInt32 (effectiveTotal p t) else d.maximum) ∧
    (onProgressUpdate u d p t).value = toInt32 p := by
  have hnot : ¬ effectiveTotal p t > INT_MAX := not_lt.mpr ht
  unfold onProgressUpdate
  simp only [hc, hnot, if_false, Bool.false_eq_true]
  constructor
  · split_ifs <;> rfl
  · split_ifs <;> rfl

/-- The bar after `onProgressUpdate` in the rescaling branch. -/
theorem onProgressUpdate_large (u : Utils) (d : FileBrowserProgressDialog) (p t : Int)
    (hc : d.task_.canceled = false) (ht : INT_MAX < effectiveTotal p t) :
    (onProgressUpdate u d p t).maximum = INT_MAX ∧
    (onProgressUpdate u d p t).value = doubleToInt (scaledProgress p (effectiveTotal p t)) := by
  have hgt : effectiveTotal p t > INT_MAX := ht
  unfold onProgressUpdate
  simp only [hc, hgt, if_true, if_false, Bool.false_eq_true]
  constructor
  · by_cases hm : d.maximum = INT_MAX
    · simp [hm, FileBrowserProgressDialog.setValue]
    · simp [hm, FileBrowserProgressDialog.setValue, FileBrowserProgressDialog.setMaximum]
  · split_ifs <;> rfl

/-- C1 (counterexample): the claim as stated includes `processed_bytes =
total_bytes`.  With both equal to 1000 on the sample dialog (task not canceled)
the guard raises the total: the maximum of the bar becomes 1001, not 1000.  So
the claim, as stated, is false. -/
theorem progress_equal_total_counterexample :
    sampleDialog.task_.canceled = false ∧
    (onProgressUpdate sampleUtils sampleDialog 1000 1000).maximum = 1001 ∧
    (onProgressUpdate sampleUtils sampleDialog 1000 1000).value = 1000 ∧
    ¬ (∀ (u : Utils) (d : FileBrowserProgressDialog) (p t : Int),
        d.task_.canceled = false → 0 ≤ p → p ≤ t → t ≤ 2147483647 →
        (onProgressUpdate u d p t).maximum = t ∧ (onProgressUpdate u d p t).value = p) := by
  have ht : effectiveTotal 1000 1000 = 1001 := by
    rw [effectiveTotal_eq 1000 1000 (by decide) (by decide)]
    decide
  obtain ⟨hm, hv⟩ := onProgressUpdate_small sampleUtils sampleDialog 1000 1000 (by decide)
    (by rw [ht]; decide)
  have h2 : (onProgressUpdate sampleUtils sampleDialog 1000 1000).maximum = 1001 := by
    rw [hm, ht]
    decide
  have h3 : (onProgressUpdate sampleUtils sampleDialog 1000 1000).value = 1000 := by
    rw [hv]
    decide
  refine ⟨by decide, h2, h3, ?_⟩
  intro h
  have h1 := (h sampleUtils sampleDialog 1000 1000 (by decide) (by decide) (by decide)
    (by decide)).1
  rw [h2] at h1
  exact absurd h1 (by decide)

/-- C1 (amended): for `0 ≤ processed_bytes < total_bytes ≤ 2^31 - 1` the bar's
maximum is `total_bytes` and its value `processed_bytes`; for `processed_bytes =
total_bytes < 2^31 - 1` the guard makes the maximum `total_bytes + 1`, the value
still being `processed_bytes`. -/
theorem progress_scaling_small (u : Utils) (d : FileBrowserProgressDialog) (p t : Int)
    (hc : d.task_.canceled = false) (hp : 0 ≤ p) (hpt : p ≤ t) (ht : t ≤ 2147483647) :
    (p < t →
      (onProgressUpdate u d p t).maximum = t ∧ (onProgressUpdate u d p t).value = p) ∧
    (p = t → t < 2147483647 →
      (onProgressUpdate u d p t).maximum = t + 1 ∧ (onProgressUpdate u d p t).value = p) := by
  have hE := effectiveTotal_eq p t hp (by omega)
  constructor
  · intro hlt
    rw [if_neg (by omega)] at hE
    obtain ⟨h1, h2⟩ := onProgressUpdate_small u d p t hc (by rw [hE]; unfold INT_MAX; omega)
    rw [h1, h2, hE, toInt32_of_range t (by omega) (by omega),
      toInt32_of_range p (by omega) (by omega)]
    refine ⟨?_, rfl⟩
    split_ifs with hm
    · rfl
    · exact not_not.mp hm
  · intro heq hlt
    rw [if_pos (by omega)] at hE
    obtain ⟨h1, h2⟩ := onProgressUpdate_small u d p t hc (by rw [hE]; unfold INT_MAX; omega)
    rw [h1, h2, hE, toInt32_of_range (p + 1) (by omega) (by omega),
      toInt32_of_range p (by omega) (by omega)]
    refine ⟨?_, rfl⟩
    split_ifs with hm
    · omega
    · rw [not_not.mp hm]; omega

/-- Witness of C1 (amended): 300 of 1000 bytes on the sample dialog. -/
theorem progress_scaling_small_witness :
    (onProgressUpdate sampleUtils sampleDialog 300 1000).maximum = 1000 ∧
    (onProgressUpdate sampleUtils sampleDialog 300 1000).value = 300 :=
  (progress_scaling_small sampleUtils sampleDialog 300 1000 (by decide) (by decide)
    (by decide) (by decide)).1 (by decide)

/-- The cast `(int)` of a non-negative double is its floor. -/
theorem doubleToInt_of_nonneg (x : ℚ) (hx : 0 ≤ x) : doubleToInt x = ⌊x⌋ := by
  unfold doubleToInt
  rw [if_pos hx]

/-- Whenever `0 ≤ processed_bytes < total`, the rescaled progress lies in
`[0, INT_MAX + 1)`, so that the cast `(int)progress` is defined, and its
truncation is within `1 + 2^(-19)` of the exact quotient. -/
theorem progress_fits_int (p t : ℤ) (hp : 0 ≤ p) (hpt : p < t) :
    0 ≤ scaledProgress p t ∧
    0 ≤ doubleToInt (scaledProgress p t) ∧
    doubleToInt (scaledProgress p t) ≤ 2147483647 ∧
    (doubleToInt (scaledProgress p t) : ℚ) ≤ (p : ℚ) * 2147483647 / t + 1 / 2 ^ 19 ∧
    (p : ℚ) * 2147483647 / t - 1 - 1 / 2 ^ 19 < doubleToInt (scaledProgress p t) := by
  have ht : 0 < t := lt_of_le_of_lt hp hpt
  have hpq : (0 : ℚ) ≤ p := by exact_mod_cast hp
  have htq : (0 : ℚ) < t := by exact_mod_cast ht
  have hptq : (p : ℚ) < t := by exact_mod_cast hpt
  obtain ⟨hlo, hhi⟩ := scaledProgress_bounds p t hp ht
  have hq0 : (0 : ℚ) ≤ (p : ℚ) * 2147483647 / t :=
    div_nonneg (mul_nonneg hpq (by norm_num)) htq.le
  have hqM : (p : ℚ) * 2147483647 / t < 2147483647 := by
    rw [div_lt_iff₀ htq]
    nlinarith
  set q := (p : ℚ) * 2147483647 / t with hq
  set C := scaledProgress p t with hC
  have hC0 : 0 ≤ C := le_trans (mul_nonneg hq0 (by norm_num)) hlo
  have hfl : doubleToInt C = ⌊C⌋ := doubleToInt_of_nonneg C hC0
  have h1 : (⌊C⌋ : ℚ) ≤ C := Int.floor_le C
  have h2 : C < (⌊C⌋ : ℚ) + 1 := Int.lt_floor_add_one C
  have hup : C ≤ q + q * (5 / 2 ^ 53) := by
    have : q * (1 + 5 / 2 ^ 53) = q + q * (5 / 2 ^ 53) := by ring
    linarith
  have hdn : q - q * (1 / 2 ^ 51) ≤ C := by
    have : q * (1 - 1 / 2 ^ 51) = q - q * (1 / 2 ^ 51) := by ring
    linarith
  have he1 : q * (5 / 2 ^ 53) < 1 / 2 ^ 19 := by
    have : q * (5 / 2 ^ 53) ≤ 2147483647 * (5 / 2 ^ 53) :=
      mul_le_mul_of_nonneg_right hqM.le (by norm_num)
    have h3 : (2147483647 : ℚ) * (5 / 2 ^ 53) < 1 / 2 ^ 19 := by norm_num
    linarith
  have he2 : q * (1 / 2 ^ 51) < 1 / 2 ^ 19 := by
    have : q * (1 / 2 ^ 51) ≤ 2147483647 * (1 / 2 ^ 51) :=
      mul_le_mul_of_nonneg_right hqM.le (by norm_num)
    have h3 : (2147483647 : ℚ) * (1 / 2 ^ 51) < 1 / 2 ^ 19 := by norm_num
    linarith
  have h19 : (1 : ℚ) / 2 ^ 19 < 1 := by norm_num
  refine ⟨hC0, ?_, ?_, ?_, ?_⟩
  · rw [hfl]
    exact Int.floor_nonneg.mpr hC0
  · rw [hfl]
    have : ⌊C⌋ < 2147483648 := by
      rw [Int.floor_lt]
      push_cast
      linarith
    omega
  · rw [hfl]
    linarith
  · rw [hfl]
    linarith

/-- C2 (counterexample): with 1 GiB of 4 GiB processed on the sample dialog the
exact quotient is `536870911.75`; rounded it is 536870912, but the bar shows
536870911, the truncated quotient.  So the claim, as stated, is false. -/
theorem progress_rounding_counterexample :
    (onProgressUpdate sampleUtils sampleDialog 1073741824 4294967296).value = 536870911 ∧
    round (((1073741824 : ℤ) : ℚ) * 2147483647 / ((4294967296 : ℤ) : ℚ)) = 536870912 ∧
    ¬ (∀ (u : Utils) (d : FileBrowserProgressDialog) (p t : Int),
        d.task_.canceled = false → 0 ≤ p → p ≤ 9223372036854775807 →
        2147483647 < t → t ≤ 9223372036854775807 →
        (onProgressUpdate u d p t).maximum = 2147483647 ∧
        (onProgressUpdate u d p t).value = round ((p : ℚ) * 2147483647 / (t : ℚ)) ∧
        (onProgressUpdate u d p t).value ≤ (onProgressUpdate u d p t).maximum) := by
  have ht : effectiveTotal 1073741824 4294967296 = 4294967296 := by
    rw [effectiveTotal_eq _ _ (by decide) (by decide)]
    decide
  have hv := (onProgressUpdate_large sampleUtils sampleDialog 1073741824 4294967296
    (by decide) (by rw [ht]; decide)).2
  rw [ht, scaledProgress_quarter, doubleToInt_of_nonneg _ (by norm_num)] at hv
  have hfloor : ⌊(2147483647 : ℚ) / 4⌋ = 536870911 := by
    rw [Int.floor_eq_iff]
    norm_num
  have hround : round (((1073741824 : ℤ) : ℚ) * 2147483647 / ((4294967296 : ℤ) : ℚ)) =
      536870912 := by
    rw [round_eq, Int.floor_eq_iff]
    norm_num
  rw [hfloor] at hv
  refine ⟨hv, hround, ?_⟩
  intro h
  have h1 := (h sampleUtils sampleDialog 1073741824 4294967296 (by decide) (by decide)
    (by decide) (by decide) (by decide)).2.1
  rw [hv, hround] at h1
  exact absurd h1 (by decide)

/-- C2 (amended): for `0 ≤ processed_bytes` and `total_bytes > 2^31 - 1` the
effective total is `total_bytes`, or `processed_bytes + 1` when `processed_bytes
≥ total_bytes`; the bar's maximum is `2^31 - 1`; its value is the double quotient
`double(processed_bytes) * INT_MAX / total` truncated toward zero, which lies
between 0 and the maximum and within `1 + 2^(-19)` of the exact rational
quotient `processed_bytes * (2^31 - 1) / total`. -/
theorem progress_scaling_large (u : Utils) (d : FileBrowserProgressDialog) (p t : Int)
    (hc : d.task_.canceled = false) (hp : 0 ≤ p) (hp2 : p < 9223372036854775807)
    (ht : 2147483647 < t) :
    effectiveTotal p t = (if t ≤ p then p + 1 else t) ∧
    (onProgressUpdate u d p t).maximum = 2147483647 ∧
    (onProgressUpdate u d p t).value = doubleToInt (scaledProgress p (effectiveTotal p t)) ∧
    0 ≤ (onProgressUpdate u d p t).value ∧
    (onProgressUpdate u d p t).value ≤ (onProgressUpdate u d p t).maximum ∧
    ((onProgressUpdate u d p t).value : ℚ) ≤
      (p : ℚ) * 2147483647 / (effectiveTotal p t : ℚ) + 1 / 2 ^ 19 ∧
    (p : ℚ) * 2147483647 / (effectiveTotal p t : ℚ) - 1 - 1 / 2 ^ 19 <
      ((onProgressUpdate u d p t).value : ℚ) := by
  have hE := effectiveTotal_eq p t hp hp2
  have hbig : INT_MAX < effectiveTotal p t := by
    rw [hE]
    unfold INT_MAX
    split_ifs <;> omega
  have hpt : p < effectiveTotal p t := by
    rw [hE]
    split_ifs <;> omega
  obtain ⟨hmax, hval⟩ := onProgressUpdate_large u d p t hc hbig
  obtain ⟨_, h0, hM, hup, hdn⟩ := progress_fits_int p (effectiveTotal p t) hp hpt
  rw [hmax, hval]
  exact ⟨hE, rfl, rfl, h0, hM, hup, hdn⟩

/-- Witness of C2 (amended): 1 GiB of 4 GiB on the sample dialog. -/
theorem progress_scaling_large_witness :
    (onProgressUpdate sampleUtils sampleDialog 1073741824 4294967296).maximum = 2147483647 ∧
    (onProgressUpdate sampleUtils sampleDialog 1073741824 4294967296).value ≤
      (onProgressUpdate sampleUtils sampleDialog 1073741824 4294967296).maximum :=
  have h := progress_scaling_large sampleUtils sampleDialog 1073741824 4294967296
    (by decide) (by decide) (by decide) (by decide)
  ⟨h.2.1, h.2.2.2.2.1⟩

/-- Below `2^50` processed bytes the guard does what it is meant to do: when
`processed_bytes ≥ total_bytes` the value of the bar stays strictly below its
maximum, in both branches. -/
theorem guard_effective_below_two_pow_50 (u : Utils) (d : FileBrowserProgressDialog)
    (p t : Int) (hc : d.task_.canceled = false) (hp : 0 ≤ p) (htp : t ≤ p)
    (hsmall : p < 1125899906842624) :
    effectiveTotal p t = p + 1 ∧
    (onProgressUpdate u d p t).value < (onProgressUpdate u d p t).maximum := by
  have hE : effectiveTotal p t = p + 1 := by
    rw [effectiveTotal_eq p t hp (by omega), if_pos htp]
  refine ⟨hE, ?_⟩
  by_cases hb : p + 1 ≤ 2147483647
  · obtain ⟨h1, h2⟩ := onProgressUpdate_small u d p t hc (by rw [hE]; exact hb)
    rw [h1, h2, hE, toInt32_of_range (p + 1) (by omega) (by omega),
      toInt32_of_range p (by omega) (by omega)]
    split_ifs with hm
    · omega
    · rw [not_not.mp hm]; omega
  · obtain ⟨h1, h2⟩ := onProgressUpdate_large u d p t hc (by rw [hE]; unfold INT_MAX; omega)
    rw [h1, h2, hE]
    have hp1 : (0 : ℤ) < p + 1 := by omega
    obtain ⟨hlo, hhi⟩ := scaledProgress_bounds p (p + 1) hp hp1
    have hpq : (0 : ℚ) ≤ p := by exact_mod_cast hp
    have hsq : (p : ℚ) < 1125899906842624 := by exact_mod_cast hsmall
    have hC0 : 0 ≤ scaledProgress p (p + 1) :=
      le_trans (mul_nonneg (div_nonneg (mul_nonneg hpq (by norm_num)) (by positivity))
        (by norm_num)) hlo
    have hlt : scaledProgress p (p + 1) < 2147483647 := by
      refine lt_of_le_of_lt hhi ?_
      have hden : (0 : ℚ) < ((p + 1 : ℤ) : ℚ) := by exact_mod_cast hp1
      rw [div_mul_eq_mul_div, div_lt_iff₀ hden]
      push_cast
      nlinarith
    rw [doubleToInt_of_nonneg _ hC0]
    unfold INT_MAX
    rw [Int.floor_lt]
    exact_mod_cast hlt

/-- C3 (failing input): `processed_bytes = total_bytes = 2^62`.  The guard makes
the total `2^62 + 1`, whose nearest double is `2^62`, so the rescaled value is
`INT_MAX`, equal to the maximum of the bar: the bar reports completion. -/
theorem guard_fails_at_two_pow_62 (u : Utils) :
    sampleDialog.task_.canceled = false ∧
    effectiveTotal 4611686018427387904 4611686018427387904 = 4611686018427387905 ∧
    (onProgressUpdate u sampleDialog 4611686018427387904 4611686018427387904).maximum =
      2147483647 ∧
    (onProgressUpdate u sampleDialog 4611686018427387904 4611686018427387904).value =
      2147483647 := by
  have ht : effectiveTotal 4611686018427387904 4611686018427387904 = 4611686018427387905 := by
    rw [effectiveTotal_eq _ _ (by decide) (by decide)]
    decide
  obtain ⟨h1, h2⟩ := onProgressUpdate_large u sampleDialog 4611686018427387904
    4611686018427387904 (by decide) (by rw [ht]; decide)
  refine ⟨by decide, ht, h1, ?_⟩
  rw [h2, ht, scaledProgress_two_pow_62, doubleToInt_of_nonneg _ (by norm_num)]
  exact Int.floor_intCast 2147483647

end Seafile
